import Mathlib

/-!
Shallow embedding of the servo keyframe-animation program in `src/frames.py`.

Real arithmetic of the Python program is modelled over `ℚ`.  Python dictionaries
(`keyframes`, `servo_config`, `interpolators`) are modelled as association lists
with unique keys, channel ids as `ℕ`.  The wall clock driving the playback loop
is modelled as an explicit trace of `elapsed_time` samples, one per tick, and the
servo sink as the list of `(channel, target)` pairs passed to `setTarget`.

The scipy call
`interp1d(times, positions, kind='linear', bounds_error=False, fill_value=(positions[0], positions[-1]))`
is embedded from scipy's documented behaviour for these arguments: construction
raises `ValueError` (`x and y arrays must have at least 2 entries`) when fewer
than two data points are supplied; with `assume_sorted=False` (the default) the
data is sorted by time (a stable argsort) at construction; evaluation at a query
time below the first (sorted) knot returns `fill_value[0]`, above the last knot
returns `fill_value[1]`, and otherwise linearly interpolates between the two
bracketing knots (`numpy.interp` semantics).  On the empty track the Python code
itself raises `IndexError` at `positions[0]` before scipy is reached; both
failure modes are modelled by `Option`.
-/

/-- Python `int()` applied to a real number truncates toward zero
(used at `pulse_us = int(...)` in `frames.py` line 78). -/
def pyInt (q : ℚ) : ℤ := if 0 ≤ q then ⌊q⌋ else ⌈q⌉

/-- Tween curve `linear` (frames.py lines 7-8). -/
def linear (t : ℚ) : ℚ := t

/-- Tween curve `ease_in_out_quad` (frames.py lines 10-14). -/
def ease_in_out_quad (t : ℚ) : ℚ :=
  if t < 1/2 then 2 * t * t else -2 * t * t + 4 * t - 1

/-- Tween curve `ease_in_out_cubic` (frames.py lines 16-20). -/
def ease_in_out_cubic (t : ℚ) : ℚ :=
  if t < 1/2 then 4 * t * t * t else 4 * t * t * t - 12 * t * t + 12 * t - 3

/-- Python dictionary lookup on an association list (keys of a Python dict are
unique, so first-match lookup is faithful). -/
def dictGet {α : Type} : List (ℕ × α) → ℕ → Option α
  | [], _ => none
  | (k, v) :: rest, ch => if k = ch then some v else dictGet rest ch

/-- Comparison by keyframe time, the key of scipy's internal argsort. -/
def timeLE (a b : ℚ × ℚ) : Prop := a.1 ≤ b.1

instance : DecidableRel timeLE := fun a b => inferInstanceAs (Decidable (a.1 ≤ b.1))

instance : IsTotal (ℚ × ℚ) timeLE := ⟨fun a b => le_total a.1 b.1⟩

instance : IsTrans (ℚ × ℚ) timeLE := ⟨fun _ _ _ h1 h2 => le_trans h1 h2⟩

/-- Piecewise-linear evaluation over a (time, position) knot list sorted by
time, as performed by `numpy.interp` strictly inside the knot range: walk to
the bracketing pair and interpolate the position by fractional time offset. -/
def segEval : List (ℚ × ℚ) → ℚ → ℚ
  | [], _ => 0
  | [p], _ => p.2
  | p :: q :: rest, t =>
    if t ≤ q.1 then p.2 + (q.2 - p.2) * (t - p.1) / (q.1 - p.1)
    else segEval (q :: rest) t

/-- State of a constructed `scipy.interpolate.interp1d` object as used by
`frames.py`: the knots sorted by time, and the two fill values for queries
below/above the knot range. -/
structure Interp1d where
  points : List (ℚ × ℚ)
  fill_below : ℚ
  fill_above : ℚ
deriving DecidableEq, Repr

/-- Constructor `interp1d(times, positions, kind='linear', bounds_error=False,
fill_value=fill)`:  fails (scipy `ValueError`) when fewer than two data points
are given; otherwise sorts the data by time (stable argsort, the default
`assume_sorted=False`). -/
def interp1d (times positions : List ℚ) (fill : ℚ × ℚ) : Option Interp1d :=
  if times.length < 2 then none
  else some ⟨List.insertionSort timeLE (times.zip positions), fill.1, fill.2⟩

/-- Per-channel interpolator construction (frames.py lines 41-45):
`times`/`positions` are the track columns and the fill values are
`(positions[0], positions[-1])` taken from the original track order.  On an
empty track `positions[0]` raises `IndexError` before scipy is reached. -/
def buildInterpolator (track : List (ℚ × ℚ)) : Option Interp1d :=
  match track with
  | [] => none
  | p :: rest =>
      interp1d (track.map Prod.fst) (track.map Prod.snd) (p.2, (rest.getLastD p).2)

/-- Evaluation of a constructed interpolator at a query time (the call
`interpolator(tweened_time)` in frames.py): clamp-to-fill outside the sorted
knot range, piecewise-linear interpolation inside it. -/
def Interp1d.evaluate (f : Interp1d) (t : ℚ) : ℚ :=
  match f.points with
  | [] => f.fill_below
  | p :: rest =>
    if t < p.1 then f.fill_below
    else if (rest.getLastD p).1 < t then f.fill_above
    else segEval (p :: rest) t

/-- Construction loop of `animate_servos` (frames.py lines 33-45): iterate the
keyframe dictionary; a channel missing from `servo_config` is skipped with a
warning (its times are not collected either); otherwise its track's times are
appended to `all_times` and its interpolator is built.  A construction failure
for any processed channel aborts the whole call (`none`). -/
def buildInterpolators (servo_config : List (ℕ × ℚ × ℚ)) :
    List (ℕ × List (ℚ × ℚ)) → Option (List (ℕ × Interp1d) × List ℚ)
  | [] => some ([], [])
  | (channel, track) :: rest =>
    match dictGet servo_config channel with
    | none => buildInterpolators servo_config rest
    | some _ =>
      match buildInterpolator track with
      | none => none
      | some f =>
        match buildInterpolators servo_config rest with
        | none => none
        | some (itps, all_times) =>
          some ((channel, f) :: itps, track.map Prod.fst ++ all_times)

/-- Derived timeline length `total_duration = max(all_times) if all_times else 0`
(frames.py line 48). -/
def totalDuration : List ℚ → ℚ
  | [] => 0
  | t :: ts => ts.foldl max t

/-- One Animation Engine sample for one channel (frames.py lines 68-74):
`progress = elapsed_time / total_duration if total_duration > 0 else 0`,
`tweened_time = tween_func(progress) * total_duration`, then the channel's
interpolator is evaluated at `tweened_time`. -/
def sampleChannel (tween_func : ℚ → ℚ) (total_duration : ℚ) (f : Interp1d)
    (elapsed_time : ℚ) : ℚ :=
  let progress := if 0 < total_duration then elapsed_time / total_duration else 0
  let tweened_time := tween_func progress * total_duration
  f.evaluate tweened_time

/-- Actuation mapping to a pulse width (frames.py line 78):
`pulse_us = int(min_us + (max_us - min_us) * normalized_target)`. -/
def pulse_us (min_us max_us v : ℚ) : ℤ := pyInt (min_us + (max_us - min_us) * v)

/-- Conversion to the controller's native quarter-microsecond unit
(frames.py line 81): `maestro_target = pulse_us * 4`. -/
def maestro_target (min_us max_us v : ℚ) : ℤ := pulse_us min_us max_us v * 4

/-- The `setTarget` commands of one tick of the running loop
(frames.py lines 72-82), in channel iteration order. -/
def tickCommands (servo_config : List (ℕ × ℚ × ℚ)) (itps : List (ℕ × Interp1d))
    (tween_func : ℚ → ℚ) (total_duration elapsed_time : ℚ) : List (ℕ × ℤ) :=
  itps.filterMap fun p =>
    (dictGet servo_config p.1).map fun c =>
      (p.1, maestro_target c.1 c.2 (sampleChannel tween_func total_duration p.2 elapsed_time))

/-- The `setTarget` commands of the final pass after the loop
(frames.py lines 90-97): the interpolator is evaluated directly at
`total_duration`, without the tween. -/
def finalCommands (servo_config : List (ℕ × ℚ × ℚ)) (itps : List (ℕ × Interp1d))
    (total_duration : ℚ) : List (ℕ × ℤ) :=
  itps.filterMap fun p =>
    (dictGet servo_config p.1).map fun c =>
      (p.1, maestro_target c.1 c.2 (p.2.evaluate total_duration))

/-- The running loop (frames.py lines 55-88) over an explicit trace of
`elapsed_time` clock samples, one per tick: the loop breaks as soon as
`elapsed_time > total_duration`, otherwise the tick's commands are emitted
and the next clock sample is processed. -/
def loopCommands (servo_config : List (ℕ × ℚ × ℚ)) (itps : List (ℕ × Interp1d))
    (tween_func : ℚ → ℚ) (total_duration : ℚ) : List ℚ → List (ℕ × ℤ)
  | [] => []
  | e :: rest =>
    if total_duration < e then []
    else tickCommands servo_config itps tween_func total_duration e ++
      loopCommands servo_config itps tween_func total_duration rest

/-- Sortedness of a track by strictly increasing keyframe times (the spec's
well-formed tracks: sorted, no degenerate duplicate times). -/
def TimesSortedLT (l : List (ℚ × ℚ)) : Prop :=
  l.Sorted fun p q => p.1 < q.1

/-- All positions of a track lie in the normalized range `[0, 1]`. -/
def InUnit (l : List (ℚ × ℚ)) : Prop :=
  ∀ p ∈ l, 0 ≤ p.2 ∧ p.2 ≤ 1

/-! Helper lemmas. -/

theorem pyInt_bounds {a b : ℤ} {q : ℚ} (h1 : (a : ℚ) ≤ q) (h2 : q ≤ (b : ℚ)) :
    a ≤ pyInt q ∧ pyInt q ≤ b := by
  unfold pyInt
  split
  · refine ⟨Int.le_floor.mpr h1, ?_⟩
    calc ⌊q⌋ ≤ ⌊(b : ℚ)⌋ := Int.floor_le_floor h2
      _ = b := Int.floor_intCast b
  · refine ⟨?_, Int.ceil_le.mpr h2⟩
    calc a = ⌈(a : ℚ)⌉ := (Int.ceil_intCast a).symm
      _ ≤ ⌈q⌉ := Int.ceil_le_ceil h1

theorem timesSorted_le {l : List (ℚ × ℚ)} (h : TimesSortedLT l) : l.Sorted timeLE :=
  List.Pairwise.imp (fun hlt => le_of_lt hlt) h

theorem le_getLastD_of_sorted (l : List (ℚ × ℚ)) (p : ℚ × ℚ)
    (hs : (p :: l).Sorted timeLE) : ∀ b ∈ p :: l, b.1 ≤ (l.getLastD p).1 := by
  induction l generalizing p with
  | nil =>
      intro b hb
      simp only [List.mem_singleton] at hb
      subst hb
      simp
  | cons q l ih =>
      intro b hb
      rw [List.getLastD_cons]
      rcases List.mem_cons.mp hb with hbp | hbq
      · have h1 : timeLE p q := List.rel_of_sorted_cons hs q (List.mem_cons_self q l)
        have h2 := ih q hs.of_cons q (List.mem_cons_self q l)
        subst hbp
        exact le_trans h1 h2
      · exact ih q hs.of_cons b hbq

theorem zip_columns : ∀ l : List (ℚ × ℚ), (l.map Prod.fst).zip (l.map Prod.snd) = l
  | [] => rfl
  | p :: rest => by simp [zip_columns rest]

theorem getLastD_of_getLast? {l : List (ℚ × ℚ)} {p pn : ℚ × ℚ}
    (h : (p :: l).getLast? = some pn) : l.getLastD p = pn := by
  induction l generalizing p with
  | nil =>
      simp only [List.getLast?_singleton, Option.some.injEq] at h
      simpa using h
  | cons q l ih =>
      rw [List.getLast?_cons_cons] at h
      rw [List.getLastD_cons]
      exact ih h

theorem segEval_cons_cons (p q : ℚ × ℚ) (rest : List (ℚ × ℚ)) (t : ℚ) :
    segEval (p :: q :: rest) t =
      if t ≤ q.1 then p.2 + (q.2 - p.2) * (t - p.1) / (q.1 - p.1)
      else segEval (q :: rest) t := rfl

theorem segEval_head (p : ℚ × ℚ) (l : List (ℚ × ℚ)) (hs : (p :: l).Sorted timeLE) :
    segEval (p :: l) p.1 = p.2 := by
  cases l with
  | nil => rfl
  | cons q l =>
      have hpq : p.1 ≤ q.1 := List.rel_of_sorted_cons hs q (List.mem_cons_self q l)
      rw [segEval_cons_cons, if_pos hpq]
      simp

theorem segEval_last (l : List (ℚ × ℚ)) (p : ℚ × ℚ)
    (hs : (l ++ [p]).Sorted fun a b => a.1 < b.1) : segEval (l ++ [p]) p.1 = p.2 := by
  induction l with
  | nil => rfl
  | cons c l ih =>
      cases l with
      | nil =>
          have hcp : c.1 < p.1 := List.rel_of_sorted_cons hs p (by simp)
          rw [List.cons_append, List.nil_append, segEval_cons_cons, if_pos le_rfl,
            mul_div_assoc, div_self (sub_ne_zero.mpr hcp.ne'), mul_one]
          ring
      | cons d l =>
          have hdp : d.1 < p.1 :=
            List.rel_of_sorted_cons hs.of_cons p (by simp)
          rw [List.cons_append, List.cons_append, segEval_cons_cons,
            if_neg (not_le.mpr hdp)]
          rw [List.cons_append] at ih
          exact ih hs.of_cons

theorem segEval_bracket (l₁ : List (ℚ × ℚ)) (a b : ℚ × ℚ) (l₂ : List (ℚ × ℚ)) (t : ℚ)
    (hs : (l₁ ++ a :: b :: l₂).Sorted fun p q => p.1 < q.1) (h1 : a.1 ≤ t) (h2 : t ≤ b.1) :
    segEval (l₁ ++ a :: b :: l₂) t = a.2 + (b.2 - a.2) * (t - a.1) / (b.1 - a.1) := by
  induction l₁ with
  | nil =>
      rw [List.nil_append, segEval_cons_cons, if_pos h2]
  | cons c l₁ ih =>
      cases l₁ with
      | nil =>
          have hca : c.1 < a.1 := List.rel_of_sorted_cons hs a (by simp)
          rw [List.cons_append, List.nil_append, segEval_cons_cons]
          by_cases hta : t ≤ a.1
          · have hteq : t = a.1 := le_antisymm hta h1
            rw [if_pos hta, hteq, mul_div_assoc, div_self (sub_ne_zero.mpr hca.ne'), mul_one]
            simp
          · rw [if_neg hta]
            rw [List.nil_append] at ih
            exact ih hs.of_cons
      | cons d l₁ =>
          have hda : d.1 < a.1 :=
            List.rel_of_sorted_cons hs.of_cons a (by simp)
          rw [List.cons_append, List.cons_append, segEval_cons_cons,
            if_neg (not_le.mpr (lt_of_lt_of_le hda h1))]
          rw [List.cons_append] at ih
          exact ih hs.of_cons

theorem segEval_unit (l : List (ℚ × ℚ)) (p : ℚ × ℚ) (t : ℚ) (hs : (p :: l).Sorted timeLE)
    (hin : InUnit (p :: l)) (ht : p.1 ≤ t) :
    0 ≤ segEval (p :: l) t ∧ segEval (p :: l) t ≤ 1 := by
  induction l generalizing p with
  | nil => exact hin p (List.mem_singleton_self p)
  | cons q l ih =>
      have hpq : timeLE p q := List.rel_of_sorted_cons hs q (List.mem_cons_self q l)
      obtain ⟨hp0, hp1⟩ := hin p (List.mem_cons_self p _)
      obtain ⟨hq0, hq1⟩ := hin q (List.mem_cons_of_mem p (List.mem_cons_self q l))
      simp only [segEval]
      by_cases htq : t ≤ q.1
      · rw [if_pos htq, mul_div_assoc]
        have hr01 : 0 ≤ (t - p.1) / (q.1 - p.1) ∧ (t - p.1) / (q.1 - p.1) ≤ 1 := by
          rcases eq_or_lt_of_le hpq with heq | hlt
          · have hz : q.1 - p.1 = 0 := by
              have : p.1 = q.1 := heq
              rw [this]; ring
            rw [hz, div_zero]
            norm_num
          · constructor
            · exact div_nonneg (sub_nonneg.mpr ht) (sub_nonneg.mpr hpq)
            · rw [div_le_one (sub_pos.mpr hlt)]
              linarith
        obtain ⟨hr0, hr1⟩ := hr01
        constructor
        · nlinarith [mul_nonneg hq0 hr0, mul_nonneg hp0 (sub_nonneg.mpr hr1)]
        · nlinarith [mul_nonneg (sub_nonneg.mpr hq1) hr0,
            mul_nonneg (sub_nonneg.mpr hp1) (sub_nonneg.mpr hr1)]
      · rw [if_neg htq]
        exact ih q hs.of_cons (fun x hx => hin x (List.mem_cons_of_mem p hx))
          (le_of_lt (not_le.mp htq))


theorem buildInterpolator_cons (p : ℚ × ℚ) (rest : List (ℚ × ℚ)) :
    buildInterpolator (p :: rest) =
      interp1d ((p :: rest).map Prod.fst) ((p :: rest).map Prod.snd)
        (p.2, (rest.getLastD p).2) := rfl

theorem evaluate_parts (f : Interp1d) (p : ℚ × ℚ) (rest : List (ℚ × ℚ)) (t : ℚ)
    (hpts : f.points = p :: rest) :
    f.evaluate t =
      if t < p.1 then f.fill_below
      else if (rest.getLastD p).1 < t then f.fill_above
      else segEval (p :: rest) t := by
  obtain ⟨pts, lo, hi⟩ := f
  subst hpts
  rfl

theorem evaluate_points_nil (f : Interp1d) (t : ℚ) (hpts : f.points = []) :
    f.evaluate t = f.fill_below := by
  obtain ⟨pts, lo, hi⟩ := f
  subst hpts
  rfl

theorem buildInterpolator_parts {track : List (ℚ × ℚ)} {f : Interp1d}
    (h : buildInterpolator track = some f) :
    f.points = List.insertionSort timeLE track ∧ 2 ≤ track.length ∧
      ∃ p rest, track = p :: rest ∧ f.fill_below = p.2 ∧ f.fill_above = (rest.getLastD p).2 := by
  cases track with
  | nil => exact absurd h (by simp [buildInterpolator])
  | cons p rest =>
      rw [buildInterpolator_cons, interp1d] at h
      by_cases hlen : ((p :: rest).map Prod.fst).length < 2
      · rw [if_pos hlen] at h
        exact absurd h (by simp)
      · rw [if_neg hlen] at h
        rw [zip_columns] at h
        obtain rfl := (Option.some.inj h).symm
        refine ⟨rfl, ?_, p, rest, rfl, rfl, rfl⟩
        simpa using not_lt.mp hlen

theorem buildInterpolator_isSome (track : List (ℚ × ℚ)) :
    (buildInterpolator track).isSome ↔ 2 ≤ track.length := by
  cases track with
  | nil => simp [buildInterpolator]
  | cons p rest =>
      rw [buildInterpolator_cons, interp1d]
      by_cases hlen : ((p :: rest).map Prod.fst).length < 2
      · rw [if_pos hlen]
        simp only [List.length_map] at hlen
        simp only [Option.isSome_none, Bool.false_eq_true, false_iff]
        omega
      · rw [if_neg hlen]
        simp only [List.length_map] at hlen
        simp only [Option.isSome_some, true_iff]
        omega

theorem buildInterpolator_sorted_points {track : List (ℚ × ℚ)} {f : Interp1d}
    (h : buildInterpolator track = some f) (hs : TimesSortedLT track) :
    f.points = track :=
  (buildInterpolator_parts h).1.trans (timesSorted_le hs).insertionSort_eq

theorem evaluate_unit {track : List (ℚ × ℚ)} {f : Interp1d}
    (h : buildInterpolator track = some f) (hin : InUnit track) (t : ℚ) :
    0 ≤ f.evaluate t ∧ f.evaluate t ≤ 1 := by
  obtain ⟨hpts, _, p0, rest0, htr, hlo, hhi⟩ := buildInterpolator_parts h
  have hlo1 : 0 ≤ f.fill_below ∧ f.fill_below ≤ 1 := by
    rw [hlo]
    exact hin p0 (htr ▸ List.mem_cons_self p0 rest0)
  have hhi1 : 0 ≤ f.fill_above ∧ f.fill_above ≤ 1 := by
    rw [hhi]
    exact hin (rest0.getLastD p0) (htr ▸ List.getLastD_mem_cons rest0 p0)
  have hsorted : f.points.Sorted timeLE := by
    rw [hpts]
    exact List.sorted_insertionSort timeLE track
  have hinpts : InUnit f.points := by
    intro x hx
    refine hin x ?_
    rw [hpts] at hx
    exact (List.mem_insertionSort timeLE).mp hx
  cases hp : f.points with
  | nil =>
      rw [evaluate_points_nil f t hp]
      exact hlo1
  | cons p rest =>
      rw [evaluate_parts f p rest t hp]
      rw [hp] at hsorted hinpts
      split_ifs with hb ha
      · exact hlo1
      · exact hhi1
      · exact segEval_unit rest p t hsorted hinpts (not_lt.mp hb)

theorem sampleChannel_pos {tw : ℚ → ℚ} {D : ℚ} {f : Interp1d} {e : ℚ} (hD : 0 < D) :
    sampleChannel tw D f e = f.evaluate (tw (e / D) * D) := by
  rw [sampleChannel, if_pos hD]

theorem sampleChannel_zero (tw : ℚ → ℚ) (f : Interp1d) (e : ℚ) :
    sampleChannel tw 0 f e = f.evaluate 0 := by
  rw [sampleChannel, if_neg (lt_irrefl 0), mul_zero]

theorem sampleChannel_total {tw : ℚ → ℚ} {D : ℚ} (f : Interp1d)
    (h1 : tw 1 = 1) (hD : 0 ≤ D) : sampleChannel tw D f D = f.evaluate D := by
  rcases lt_or_eq_of_le hD with hpos | heq
  · rw [sampleChannel_pos hpos, div_self hpos.ne', h1, one_mul]
  · rw [← heq]
    exact sampleChannel_zero tw f 0

theorem sampleChannel_is_evaluate (tw : ℚ → ℚ) (D : ℚ) (f : Interp1d) (e : ℚ) :
    ∃ t, sampleChannel tw D f e = f.evaluate t :=
  ⟨tw (if 0 < D then e / D else 0) * D, rfl⟩

theorem mem_tickCommands {cfg : List (ℕ × ℚ × ℚ)} {itps : List (ℕ × Interp1d)}
    {tw : ℚ → ℚ} {D e : ℚ} {pc : ℕ × ℤ} (h : pc ∈ tickCommands cfg itps tw D e) :
    ∃ p ∈ itps, ∃ c, dictGet cfg p.1 = some c ∧
      pc = (p.1, maestro_target c.1 c.2 (sampleChannel tw D p.2 e)) := by
  rw [tickCommands, List.mem_filterMap] at h
  obtain ⟨p, hp, heq⟩ := h
  cases hc : dictGet cfg p.1 with
  | none => rw [hc] at heq; exact absurd heq (by simp)
  | some c =>
      rw [hc] at heq
      simp only [Option.map_some', Option.some.injEq] at heq
      exact ⟨p, hp, c, hc, heq.symm⟩

theorem mem_finalCommands {cfg : List (ℕ × ℚ × ℚ)} {itps : List (ℕ × Interp1d)}
    {D : ℚ} {pc : ℕ × ℤ} (h : pc ∈ finalCommands cfg itps D) :
    ∃ p ∈ itps, ∃ c, dictGet cfg p.1 = some c ∧
      pc = (p.1, maestro_target c.1 c.2 (p.2.evaluate D)) := by
  rw [finalCommands, List.mem_filterMap] at h
  obtain ⟨p, hp, heq⟩ := h
  cases hc : dictGet cfg p.1 with
  | none => rw [hc] at heq; exact absurd heq (by simp)
  | some c =>
      rw [hc] at heq
      simp only [Option.map_some', Option.some.injEq] at heq
      exact ⟨p, hp, c, hc, heq.symm⟩

theorem mem_loopCommands {cfg : List (ℕ × ℚ × ℚ)} {itps : List (ℕ × Interp1d)}
    {tw : ℚ → ℚ} {D : ℚ} {trace : List ℚ} {pc : ℕ × ℤ}
    (h : pc ∈ loopCommands cfg itps tw D trace) :
    ∃ e ∈ trace, ¬ D < e ∧ pc ∈ tickCommands cfg itps tw D e := by
  induction trace with
  | nil => exact absurd h (by simp [loopCommands])
  | cons e rest ih =>
      rw [loopCommands] at h
      by_cases hD : D < e
      · rw [if_pos hD] at h
        exact absurd h (by simp)
      · rw [if_neg hD] at h
        rcases List.mem_append.mp h with htick | hrest
        · exact ⟨e, List.mem_cons_self e rest, hD, htick⟩
        · obtain ⟨e', he', hnl, ht⟩ := ih hrest
          exact ⟨e', List.mem_cons_of_mem e he', hnl, ht⟩

theorem tickCommands_channel {cfg : List (ℕ × ℚ × ℚ)} {itps : List (ℕ × Interp1d)}
    {tw : ℚ → ℚ} {D e : ℚ} {pc : ℕ × ℤ} (h : pc ∈ tickCommands cfg itps tw D e) :
    pc.1 ∈ itps.map Prod.fst := by
  obtain ⟨p, hp, c, _, heq⟩ := mem_tickCommands h
  rw [heq]
  exact List.mem_map.mpr ⟨p, hp, rfl⟩

theorem finalCommands_channel {cfg : List (ℕ × ℚ × ℚ)} {itps : List (ℕ × Interp1d)}
    {D : ℚ} {pc : ℕ × ℤ} (h : pc ∈ finalCommands cfg itps D) :
    pc.1 ∈ itps.map Prod.fst := by
  obtain ⟨p, hp, c, _, heq⟩ := mem_finalCommands h
  rw [heq]
  exact List.mem_map.mpr ⟨p, hp, rfl⟩

theorem finalCommands_map_fst {cfg : List (ℕ × ℚ × ℚ)} {itps : List (ℕ × Interp1d)}
    {D : ℚ} (h : ∀ p ∈ itps, (dictGet cfg p.1).isSome) :
    (finalCommands cfg itps D).map Prod.fst = itps.map Prod.fst := by
  induction itps with
  | nil => rfl
  | cons p rest ih =>
      rw [finalCommands, List.filterMap_cons]
      cases hc : dictGet cfg p.1 with
      | none =>
          have := h p (List.mem_cons_self p rest)
          rw [hc] at this
          exact absurd this (by simp)
      | some c =>
          simp only [Option.map_some']
          rw [List.map_cons]
          have ihr := ih fun q hq => h q (List.mem_cons_of_mem p hq)
          rw [finalCommands] at ihr
          rw [ihr, List.map_cons]

theorem buildInterpolators_skip {cfg : List (ℕ × ℚ × ℚ)} {ch : ℕ}
    {track : List (ℚ × ℚ)} {rest : List (ℕ × List (ℚ × ℚ))}
    (h : dictGet cfg ch = none) :
    buildInterpolators cfg ((ch, track) :: rest) = buildInterpolators cfg rest := by
  rw [buildInterpolators, h]

theorem buildInterpolators_mem {cfg : List (ℕ × ℚ × ℚ)}
    {tracks : List (ℕ × List (ℚ × ℚ))} {itps : List (ℕ × Interp1d)} {allT : List ℚ}
    {p : ℕ × Interp1d} (h : buildInterpolators cfg tracks = some (itps, allT))
    (hp : p ∈ itps) :
    ∃ track c, (p.1, track) ∈ tracks ∧ buildInterpolator track = some p.2 ∧
      dictGet cfg p.1 = some c := by
  induction tracks generalizing itps allT with
  | nil =>
      rw [buildInterpolators] at h
      simp only [Option.some.injEq, Prod.mk.injEq] at h
      obtain ⟨h1, _⟩ := h
      rw [← h1] at hp
      exact absurd hp (by simp)
  | cons entry rest ih =>
      obtain ⟨ch, track⟩ := entry
      rw [buildInterpolators] at h
      cases hdg : dictGet cfg ch with
      | none =>
          rw [hdg] at h
          obtain ⟨track', c, htr, hb, hd⟩ := ih h hp
          exact ⟨track', c, List.mem_cons_of_mem _ htr, hb, hd⟩
      | some c =>
          rw [hdg] at h
          cases hb : buildInterpolator track with
          | none => rw [hb] at h; exact absurd h (by simp)
          | some f =>
              rw [hb] at h
              cases hrec : buildInterpolators cfg rest with
              | none => rw [hrec] at h; exact absurd h (by simp)
              | some pr =>
                  obtain ⟨itps', allT'⟩ := pr
                  rw [hrec] at h
                  simp only [Option.some.injEq, Prod.mk.injEq] at h
                  obtain ⟨h1, _⟩ := h
                  rw [← h1] at hp
                  rcases List.mem_cons.mp hp with hph | hptail
                  · refine ⟨track, c, ?_, ?_, ?_⟩
                    · rw [hph]
                      exact List.mem_cons_self _ _
                    · rw [hph]
                      exact hb
                    · rw [hph]
                      exact hdg
                  · obtain ⟨track', c', htr, hb', hd'⟩ := ih hrec hptail
                    exact ⟨track', c', List.mem_cons_of_mem _ htr, hb', hd'⟩

theorem buildInterpolators_not_mem {cfg : List (ℕ × ℚ × ℚ)}
    {tracks : List (ℕ × List (ℚ × ℚ))} {itps : List (ℕ × Interp1d)} {allT : List ℚ}
    {ch : ℕ} (h : buildInterpolators cfg tracks = some (itps, allT))
    (hch : dictGet cfg ch = none) : ch ∉ itps.map Prod.fst := by
  intro hmem
  obtain ⟨p, hp, hfst⟩ := List.mem_map.mp hmem
  obtain ⟨track, c, _, _, hd⟩ := buildInterpolators_mem h hp
  rw [hfst] at hd
  rw [hch] at hd
  exact absurd hd (by simp)

theorem maestro_target_dvd (min_us max_us v : ℚ) : (4 : ℤ) ∣ maestro_target min_us max_us v :=
  dvd_mul_left 4 (pulse_us min_us max_us v)

theorem final_eq_tick {cfg : List (ℕ × ℚ × ℚ)} {itps : List (ℕ × Interp1d)}
    {tw : ℚ → ℚ} {D : ℚ} (h1 : tw 1 = 1) (hD : 0 ≤ D) :
    finalCommands cfg itps D = tickCommands cfg itps tw D D := by
  rw [finalCommands, tickCommands]
  have hfun : (fun (p : ℕ × Interp1d) =>
        (dictGet cfg p.1).map fun c => (p.1, maestro_target c.1 c.2 (p.2.evaluate D))) =
      fun (p : ℕ × Interp1d) =>
        (dictGet cfg p.1).map fun c =>
          (p.1, maestro_target c.1 c.2 (sampleChannel tw D p.2 D)) := by
    funext p
    rw [sampleChannel_total p.2 h1 hD]
  rw [hfun]

theorem evaluate_le_head {track : List (ℚ × ℚ)} {f : Interp1d} {p0 : ℚ × ℚ} {t : ℚ}
    (h : buildInterpolator track = some f) (hs : TimesSortedLT track)
    (hh : track.head? = some p0) (ht : t ≤ p0.1) : f.evaluate t = p0.2 := by
  have hpts := buildInterpolator_sorted_points h hs
  obtain ⟨_, _, p, rest, htr, hlo, _⟩ := buildInterpolator_parts h
  have hp0 : p = p0 := by
    rw [htr] at hh
    simpa using hh
  rw [hp0] at htr hlo
  have hsle : (p0 :: rest).Sorted timeLE := htr ▸ timesSorted_le hs
  rw [evaluate_parts f p0 rest t (hpts.trans htr)]
  by_cases h0 : t < p0.1
  · rw [if_pos h0, hlo]
  · have hte : t = p0.1 := le_antisymm ht (not_lt.mp h0)
    have hle : p0.1 ≤ (rest.getLastD p0).1 :=
      le_getLastD_of_sorted rest p0 hsle p0 (List.mem_cons_self p0 rest)
    rw [if_neg h0, if_neg (not_lt.mpr (hte ▸ hle)), hte]
    exact segEval_head p0 rest hsle

theorem evaluate_ge_last {track : List (ℚ × ℚ)} {f : Interp1d} {pn : ℚ × ℚ} {t : ℚ}
    (h : buildInterpolator track = some f) (hs : TimesSortedLT track)
    (hl : track.getLast? = some pn) (ht : pn.1 ≤ t) : f.evaluate t = pn.2 := by
  have hpts := buildInterpolator_sorted_points h hs
  obtain ⟨_, _, p, rest, htr, _, hhi⟩ := buildInterpolator_parts h
  subst htr
  have hlast : rest.getLastD p = pn := getLastD_of_getLast? hl
  have hple : p.1 ≤ pn.1 := by
    rw [← hlast]
    exact le_getLastD_of_sorted rest p (timesSorted_le hs) p (List.mem_cons_self p rest)
  rw [evaluate_parts f p rest t hpts]
  rw [if_neg (not_lt.mpr (le_trans hple ht))]
  by_cases hab : (rest.getLastD p).1 < t
  · rw [if_pos hab, hhi, hlast]
  · have hte : t = pn.1 := by
      rw [hlast] at hab
      exact le_antisymm (not_lt.mp hab) ht
    obtain ⟨ys, hys⟩ := List.getLast?_eq_some_iff.mp hl
    rw [if_neg hab, hte, hys]
    exact segEval_last ys pn (hys ▸ hs)

theorem evaluate_bracket {l₁ : List (ℚ × ℚ)} {a b : ℚ × ℚ} {l₂ : List (ℚ × ℚ)}
    {f : Interp1d} {t : ℚ} (h : buildInterpolator (l₁ ++ a :: b :: l₂) = some f)
    (hs : TimesSortedLT (l₁ ++ a :: b :: l₂)) (h1 : a.1 ≤ t) (h2 : t ≤ b.1) :
    f.evaluate t = a.2 + (b.2 - a.2) * (t - a.1) / (b.1 - a.1) := by
  have hpts := buildInterpolator_sorted_points h hs
  obtain ⟨_, _, p, rest, htr, _, _⟩ := buildInterpolator_parts h
  have ha : a ∈ p :: rest := by
    rw [← htr]
    exact List.mem_append_right l₁ (List.mem_cons_self a _)
  have hb : b ∈ p :: rest := by
    rw [← htr]
    exact List.mem_append_right l₁ (List.mem_cons_of_mem a (List.mem_cons_self b l₂))
  have hsle : (p :: rest).Sorted timeLE := by
    rw [← htr]
    exact timesSorted_le hs
  have hpa : p.1 ≤ a.1 := by
    rcases List.mem_cons.mp ha with rfl | hmem
    · exact le_refl _
    · exact List.rel_of_sorted_cons hsle a hmem
  have hblast : b.1 ≤ (rest.getLastD p).1 := le_getLastD_of_sorted rest p hsle b hb
  rw [evaluate_parts f p rest t (hpts.trans htr)]
  rw [if_neg (not_lt.mpr (le_trans hpa h1)), if_neg (not_lt.mpr (le_trans h2 hblast)), ← htr]
  exact segEval_bracket l₁ a b l₂ t hs h1 h2

theorem evaluate_zero_head {track : List (ℚ × ℚ)} {f : Interp1d} {p0 : ℚ × ℚ}
    (h : buildInterpolator track = some f) (hs : TimesSortedLT track)
    (hnn : ∀ p ∈ track, 0 ≤ p.1) (hh : track.head? = some p0) :
    f.evaluate 0 = p0.2 := by
  have h0 : (0 : ℚ) ≤ p0.1 := hnn p0 (by
    cases track with
    | nil => exact absurd hh (by simp)
    | cons p rest =>
        have : p = p0 := by simpa using hh
        rw [← this]
        exact List.mem_cons_self p rest)
  exact evaluate_le_head h hs hh h0

/-! Claim theorems. -/

/-- Claim C1: for every tick while the total duration is positive, the engine
sample follows the three-step formula (progress = elapsed/total, tweened time =
tween(progress)·total, value = interpolator at the tweened time); and on the
boundary scenario (track channel 0 ↦ [(0,0),(2,1)], linear tween, total duration
2) sampling at elapsed time 1 gives progress 1/2, tweened time 1 and normalized
value 1/2. -/
theorem claim_C1 :
    (∀ (tw : ℚ → ℚ) (D : ℚ) (f : Interp1d) (e : ℚ), 0 < D →
        sampleChannel tw D f e = f.evaluate (tw (e / D) * D)) ∧
    linear ((1 : ℚ) / 2) * 2 = 1 ∧
    (buildInterpolator [(0, 0), (2, 1)]).map (fun f => sampleChannel linear 2 f 1) =
      some (1 / 2) := by
  refine ⟨fun tw D f e hD => sampleChannel_pos hD, by norm_num [linear], ?_⟩
  norm_num [buildInterpolator, interp1d, List.insertionSort, List.orderedInsert, timeLE,
    sampleChannel, Interp1d.evaluate, segEval, List.getLastD, linear]

/-- Witness for claim C1: the sampling formula applied at the boundary
scenario's concrete inputs (total duration 2, elapsed time 1). -/
theorem claim_C1_witness :
    (0 : ℚ) < 2 ∧
      sampleChannel linear 2 ⟨[(0, 0), (2, 1)], 0, 1⟩ 1 =
        Interp1d.evaluate ⟨[(0, 0), (2, 1)], 0, 1⟩ (linear (1 / 2) * 2) :=
  ⟨by norm_num, claim_C1.1 linear 2 ⟨[(0, 0), (2, 1)], 0, 1⟩ 1 (by norm_num)⟩

/-- Counterexample to claim C3 as stated: the claim says the emitted device
command equals `pulse * 4` truncated toward zero, but the code truncates the
pulse first and then scales, so at min 1000, max 2000, v = 1/3 the code emits
1333·4 = 5332 while trunc(pulse·4) = trunc(16000/3) = 5333. -/
theorem claim_C3_cex :
    maestro_target 1000 2000 (1/3) = 5332 ∧
      pyInt ((1000 + (2000 - 1000) * ((1 : ℚ)/3)) * 4) = 5333 ∧
      maestro_target 1000 2000 (1/3) ≠ pyInt ((1000 + (2000 - 1000) * ((1 : ℚ)/3)) * 4) := by
  norm_num [maestro_target, pulse_us, pyInt]

/-- Claim C3 (amended): the mapper computes the pulse by the affine formula,
truncates it toward zero, and the device command is that truncated pulse times
4; for min 1000, max 2000, v = 1/4 the pulse is 1250 and the command is 5000. -/
theorem claim_C3 :
    (∀ min_us max_us v : ℚ,
        maestro_target min_us max_us v = pyInt (min_us + (max_us - min_us) * v) * 4) ∧
    pulse_us 1000 2000 (1/4) = 1250 ∧ maestro_target 1000 2000 (1/4) = 5000 := by
  refine ⟨fun _ _ _ => rfl, ?_, ?_⟩ <;> norm_num [maestro_target, pulse_us, pyInt]

/-- Claim C5: when the total duration is 0 no division by zero occurs (every
sample uses timeline value 0), the running loop exits at the first tick with a
positive clock, the final pass emits exactly one command per channel, and that
command is at the interpolator's clamped first position (for a well-formed track
with non-negative times). -/
theorem claim_C5 :
    totalDuration [] = 0 ∧
    (∀ (tw : ℚ → ℚ) (f : Interp1d) (e : ℚ), sampleChannel tw 0 f e = f.evaluate 0) ∧
    (∀ (cfg : List (ℕ × ℚ × ℚ)) (itps : List (ℕ × Interp1d)) (tw : ℚ → ℚ)
        (e : ℚ) (trace : List ℚ), 0 < e → loopCommands cfg itps tw 0 (e :: trace) = []) ∧
    (∀ (cfg : List (ℕ × ℚ × ℚ)) (itps : List (ℕ × Interp1d)),
        (∀ p ∈ itps, (dictGet cfg p.1).isSome) →
        (finalCommands cfg itps 0).map Prod.fst = itps.map Prod.fst) ∧
    (∀ (track : List (ℚ × ℚ)) (f : Interp1d) (p0 : ℚ × ℚ),
        buildInterpolator track = some f → TimesSortedLT track →
        (∀ p ∈ track, 0 ≤ p.1) → track.head? = some p0 → f.evaluate 0 = p0.2) := by
  refine ⟨rfl, fun tw f e => sampleChannel_zero tw f e, ?_,
    fun cfg itps h => finalCommands_map_fst h,
    fun track f p0 hb hs hnn hh => evaluate_zero_head hb hs hnn hh⟩
  intro cfg itps tw e trace he
  rw [loopCommands, if_pos he]

/-- Witness for claim C5: with total duration 0, a first tick at clock 1
produces no loop commands at all. -/
theorem claim_C5_witness :
    (0 : ℚ) < 1 ∧ loopCommands [] [] linear 0 [1] = [] :=
  ⟨by norm_num, claim_C5.2.2.1 [] [] linear 1 [] (by norm_num)⟩

/-- Claim C6: the three reference tweens fix 0 and 1 exactly, map [0,1] into
[0,1], and the two piecewise formulas of the quadratic and cubic variants agree
in value at the seam t = 1/2. -/
theorem claim_C6 :
    linear 0 = 0 ∧ linear 1 = 1 ∧
    ease_in_out_quad 0 = 0 ∧ ease_in_out_quad 1 = 1 ∧
    ease_in_out_cubic 0 = 0 ∧ ease_in_out_cubic 1 = 1 ∧
    ease_in_out_quad (1/2) = 2 * (1/2 : ℚ) * (1/2) ∧
    ease_in_out_cubic (1/2) = 4 * (1/2 : ℚ) * (1/2) * (1/2) ∧
    (∀ t : ℚ, 0 ≤ t → t ≤ 1 →
      (0 ≤ linear t ∧ linear t ≤ 1) ∧
      (0 ≤ ease_in_out_quad t ∧ ease_in_out_quad t ≤ 1) ∧
      (0 ≤ ease_in_out_cubic t ∧ ease_in_out_cubic t ≤ 1)) := by
  refine ⟨rfl, rfl, by norm_num [ease_in_out_quad], by norm_num [ease_in_out_quad],
    by norm_num [ease_in_out_cubic], by norm_num [ease_in_out_cubic],
    by norm_num [ease_in_out_quad], by norm_num [ease_in_out_cubic], ?_⟩
  intro t h0 h1
  refine ⟨⟨h0, h1⟩, ?_, ?_⟩
  · rw [ease_in_out_quad]
    split_ifs with h
    · constructor <;> nlinarith [sq_nonneg t, sq_nonneg (2*t - 1)]
    · constructor <;> nlinarith [sq_nonneg (1 - t), sq_nonneg (2*t - 1)]
  · rw [ease_in_out_cubic]
    split_ifs with h
    · have h3 : 0 ≤ t * t * t := mul_nonneg (mul_nonneg h0 h0) h0
      constructor <;> nlinarith [sq_nonneg t, mul_nonneg h0 h0,
        mul_nonneg (mul_nonneg h0 h0) h0, sq_nonneg (2*t - 1),
        mul_nonneg (mul_nonneg h0 h0) (sub_nonneg.mpr h1)]
    · have hu : (0 : ℚ) ≤ 1 - t := sub_nonneg.mpr h1
      have h3 : 0 ≤ (1 - t) * (1 - t) * (1 - t) := mul_nonneg (mul_nonneg hu hu) hu
      constructor <;> nlinarith [sq_nonneg (1 - t), sq_nonneg (2*t - 1),
        mul_nonneg (mul_nonneg hu hu) hu]

/-- Witness for claim C6: the range clause evaluated at t = 1/3 for the cubic
tween. -/
theorem claim_C6_witness :
    (0 : ℚ) ≤ 1/3 ∧ (1/3 : ℚ) ≤ 1 ∧
      0 ≤ ease_in_out_cubic (1/3) ∧ ease_in_out_cubic (1/3) ≤ 1 := by
  have h9 := claim_C6.2.2.2.2.2.2.2.2 (1/3) (by norm_num) (by norm_num)
  exact ⟨by norm_num, by norm_num, h9.2.2.1, h9.2.2.2⟩

/-- Counterexample to claim C7 as stated: the single-keyframe track [(0, 1/2)]
is non-empty yet its interpolator construction fails (scipy's linear interp1d
requires at least two data points). -/
theorem claim_C7_cex :
    buildInterpolator [((0 : ℚ), (1 : ℚ)/2)] = none ∧
      ([((0 : ℚ), (1 : ℚ)/2)] : List (ℚ × ℚ)) ≠ [] := by
  exact ⟨rfl, by simp⟩

/-- Claim C7 (amended): interpolator construction fails on the empty track (the
code's `positions[0]` raises before playback) and on single-keyframe tracks
(scipy's linear interp1d requires two data points), and succeeds exactly for
tracks with at least two keyframes. -/
theorem claim_C7 :
    buildInterpolator ([] : List (ℚ × ℚ)) = none ∧
    (∀ track : List (ℚ × ℚ), (buildInterpolator track).isSome ↔ 2 ≤ track.length) :=
  ⟨rfl, buildInterpolator_isSome⟩

/-- Claim C9: after the loop, the final pass emits exactly one command per
channel, and whenever the tween fixes 1 the final pass coincides with an engine
sample taken at elapsed time = total duration (exact terminal positioning). -/
theorem claim_C9 :
    ∀ (cfg : List (ℕ × ℚ × ℚ)) (itps : List (ℕ × Interp1d)) (tw : ℚ → ℚ) (D : ℚ),
      tw 1 = 1 → 0 ≤ D →
      finalCommands cfg itps D = tickCommands cfg itps tw D D ∧
      ((∀ p ∈ itps, (dictGet cfg p.1).isSome) →
        (finalCommands cfg itps D).map Prod.fst = itps.map Prod.fst) :=
  fun _ _ _ _ h1 hD =>
    ⟨final_eq_tick h1 hD, fun hall => finalCommands_map_fst hall⟩

/-- Witness for claim C9: final pass equals the terminal tick for a concrete
one-channel animation with the linear tween and total duration 2. -/
theorem claim_C9_witness :
    linear 1 = 1 ∧
      finalCommands [(0, ((1000 : ℚ), 2000))] [(0, ⟨[(0, 0), (2, 1)], 0, 1⟩)] 2 =
        tickCommands [(0, ((1000 : ℚ), 2000))] [(0, ⟨[(0, 0), (2, 1)], 0, 1⟩)] linear 2 2 :=
  ⟨rfl, (claim_C9 [(0, ((1000 : ℚ), 2000))] [(0, ⟨[(0, 0), (2, 1)], 0, 1⟩)] linear 2 rfl
    (by norm_num)).1⟩

/-- Claim C10: every command emitted to the servo sink, in the loop and in the
final pass, is an exact multiple of 4, because the pulse is truncated to an
integer before the quarter-microsecond scaling. -/
theorem claim_C10 :
    ∀ (cfg : List (ℕ × ℚ × ℚ)) (itps : List (ℕ × Interp1d)) (tw : ℚ → ℚ)
      (D : ℚ) (trace : List ℚ),
      ∀ pc ∈ loopCommands cfg itps tw D trace ++ finalCommands cfg itps D,
        (4 : ℤ) ∣ pc.2 := by
  intro cfg itps tw D trace pc hmem
  rcases List.mem_append.mp hmem with hl | hf
  · obtain ⟨e, _, _, ht⟩ := mem_loopCommands hl
    obtain ⟨p, _, c, _, hpc⟩ := mem_tickCommands ht
    rw [hpc]
    exact maestro_target_dvd c.1 c.2 _
  · obtain ⟨p, _, c, _, hpc⟩ := mem_finalCommands hf
    rw [hpc]
    exact maestro_target_dvd c.1 c.2 _

/-- Witness for claim C10: the concrete final command (channel 0, target 8000)
of a one-channel animation is a multiple of 4. -/
theorem claim_C10_witness :
    ((0, 8000) : ℕ × ℤ) ∈
        loopCommands [(0, ((1000 : ℚ), 2000))] [(0, ⟨[(0, 0), (2, 1)], 0, 1⟩)] linear 2 [] ++
          finalCommands [(0, ((1000 : ℚ), 2000))] [(0, ⟨[(0, 0), (2, 1)], 0, 1⟩)] 2 ∧
      (4 : ℤ) ∣ (8000 : ℤ) := by
  have hmem : ((0, 8000) : ℕ × ℤ) ∈
      loopCommands [(0, ((1000 : ℚ), 2000))] [(0, ⟨[(0, 0), (2, 1)], 0, 1⟩)] linear 2 [] ++
        finalCommands [(0, ((1000 : ℚ), 2000))] [(0, ⟨[(0, 0), (2, 1)], 0, 1⟩)] 2 := by
    norm_num [loopCommands, finalCommands, tickCommands, dictGet, maestro_target, pulse_us,
      pyInt, Interp1d.evaluate, segEval, List.getLastD]
  exact ⟨hmem, claim_C10 [(0, ((1000 : ℚ), 2000))] [(0, ⟨[(0, 0), (2, 1)], 0, 1⟩)]
    linear 2 [] (0, 8000) hmem⟩

/-- Claim C2: a channel interpolator built from a track with (strictly) sorted
times clamps to the first position at or below the first keyframe time, clamps
to the last position at or beyond the last keyframe time, and linearly
interpolates between the bracketing keyframe pair otherwise; concretely, for the
track [(0, 1/5), (1, 4/5)]: evaluate(-5) = 1/5, evaluate(10) = 4/5,
evaluate(1/2) = 1/2. -/
theorem claim_C2 :
    (∀ (track : List (ℚ × ℚ)) (f : Interp1d) (p0 pn : ℚ × ℚ) (t : ℚ),
        buildInterpolator track = some f → TimesSortedLT track →
        track.head? = some p0 → track.getLast? = some pn →
        (t ≤ p0.1 → f.evaluate t = p0.2) ∧ (pn.1 ≤ t → f.evaluate t = pn.2)) ∧
    (∀ (l₁ : List (ℚ × ℚ)) (a b : ℚ × ℚ) (l₂ : List (ℚ × ℚ)) (f : Interp1d) (t : ℚ),
        buildInterpolator (l₁ ++ a :: b :: l₂) = some f →
        TimesSortedLT (l₁ ++ a :: b :: l₂) → a.1 ≤ t → t ≤ b.1 →
        f.evaluate t = a.2 + (b.2 - a.2) * (t - a.1) / (b.1 - a.1)) ∧
    (buildInterpolator [(0, 1/5), (1, 4/5)]).map
        (fun f => (f.evaluate (-5), f.evaluate 10, f.evaluate (1/2))) =
      some (1/5, 4/5, 1/2) := by
  refine ⟨fun track f p0 pn t hb hs hh hl =>
      ⟨fun ht => evaluate_le_head hb hs hh ht, fun ht => evaluate_ge_last hb hs hl ht⟩,
    fun l₁ a b l₂ f t hb hs h1 h2 => evaluate_bracket hb hs h1 h2, ?_⟩
  norm_num [buildInterpolator, interp1d, List.insertionSort, List.orderedInsert, timeLE,
    Interp1d.evaluate, segEval, List.getLastD]

/-- Witness for claim C2: the clamp-below clause applied to the concrete track
[(0, 1/5), (1, 4/5)] at query time -5. -/
theorem claim_C2_witness :
    TimesSortedLT [((0 : ℚ), (1 : ℚ)/5), (1, 4/5)] ∧
      Interp1d.evaluate ⟨[(0, 1/5), (1, 4/5)], 1/5, 4/5⟩ (-5) = 1/5 := by
  have hs : TimesSortedLT [((0 : ℚ), (1 : ℚ)/5), (1, 4/5)] := by
    simp only [TimesSortedLT, List.sorted_cons, List.mem_singleton, List.sorted_singleton]
    norm_num
  have hb : buildInterpolator [((0 : ℚ), (1 : ℚ)/5), (1, 4/5)] =
      some ⟨[(0, 1/5), (1, 4/5)], 1/5, 4/5⟩ := by
    norm_num [buildInterpolator, interp1d, List.insertionSort, List.orderedInsert, timeLE,
      List.getLastD]
  exact ⟨hs, (claim_C2.1 [((0 : ℚ), (1 : ℚ)/5), (1, 4/5)] ⟨[(0, 1/5), (1, 4/5)], 1/5, 4/5⟩
    (0, 1/5) (1, 4/5) (-5) hb hs rfl rfl).1 (by norm_num)⟩

/-- Claim C8: a channel present in the keyframe source but absent from the
servo configuration is skipped: construction behaves as if the entry were not
there (so it cannot fail because of that entry and proceeds with the remaining
channels), no interpolator is built for it, and no command is ever emitted for
it; concretely, keyframes for channel 9 against a config defining channels 0
and 1 build successfully with no interpolators. -/
theorem claim_C8 :
    (∀ (cfg : List (ℕ × ℚ × ℚ)) (ch : ℕ) (track : List (ℚ × ℚ))
        (rest : List (ℕ × List (ℚ × ℚ))), dictGet cfg ch = none →
        buildInterpolators cfg ((ch, track) :: rest) = buildInterpolators cfg rest) ∧
    (∀ (cfg : List (ℕ × ℚ × ℚ)) (tracks : List (ℕ × List (ℚ × ℚ)))
        (itps : List (ℕ × Interp1d)) (allT : List ℚ) (ch : ℕ),
        buildInterpolators cfg tracks = some (itps, allT) → dictGet cfg ch = none →
        ch ∉ itps.map Prod.fst) ∧
    (∀ (cfg : List (ℕ × ℚ × ℚ)) (itps : List (ℕ × Interp1d)) (tw : ℚ → ℚ)
        (D : ℚ) (trace : List ℚ) (ch : ℕ), ch ∉ itps.map Prod.fst →
        ∀ pc ∈ loopCommands cfg itps tw D trace ++ finalCommands cfg itps D, pc.1 ≠ ch) ∧
    buildInterpolators [(0, ((1000 : ℚ), 2000)), (1, (1000, 2000))]
        [(9, [(0, 1/2), (1, 1)])] = some ([], []) := by
  refine ⟨fun cfg ch track rest h => buildInterpolators_skip h,
    fun cfg tracks itps allT ch hb hch => buildInterpolators_not_mem hb hch, ?_, ?_⟩
  · intro cfg itps tw D trace ch hch pc hmem heq
    rcases List.mem_append.mp hmem with hl | hf
    · obtain ⟨e, _, _, ht⟩ := mem_loopCommands hl
      exact hch (heq ▸ tickCommands_channel ht)
    · exact hch (heq ▸ finalCommands_channel hf)
  · norm_num [buildInterpolators, dictGet]

/-- Witness for claim C8: channel 9 is missing from the two-channel config, so
its keyframe entry (here even an empty track) is skipped without failing
construction. -/
theorem claim_C8_witness :
    dictGet [(0, ((1000 : ℚ), (2000 : ℚ))), (1, ((1000 : ℚ), (2000 : ℚ)))] 9 = none ∧
      buildInterpolators [(0, ((1000 : ℚ), (2000 : ℚ))), (1, ((1000 : ℚ), (2000 : ℚ)))]
          [(9, ([] : List (ℚ × ℚ)))] =
        buildInterpolators [(0, ((1000 : ℚ), (2000 : ℚ))), (1, ((1000 : ℚ), (2000 : ℚ)))]
          [] := by
  have hd : dictGet [(0, ((1000 : ℚ), (2000 : ℚ))), (1, ((1000 : ℚ), (2000 : ℚ)))] 9 =
      none := by
    norm_num [dictGet]
  exact ⟨hd, claim_C8.1 [(0, ((1000 : ℚ), (2000 : ℚ))), (1, ((1000 : ℚ), (2000 : ℚ)))]
    9 [] [] hd⟩

/-- Counterexample to claim C4 as stated: with the non-integer config
min_pulse = 2001/2 (= 1000.5), max_pulse = 2000 and a track whose positions all
lie in [0, 1], the loop emits command 4000 for channel 0, which is below the
scaled lower bound 4 · 1000.5 = 4002. -/
theorem claim_C4_cex :
    buildInterpolators [(0, ((2001 : ℚ)/2, 2000))] [(0, [(0, 0), (1, 0)])] =
        some ([(0, ⟨[(0, 0), (1, 0)], 0, 0⟩)], [0, 1]) ∧
      totalDuration [0, 1] = 1 ∧
      InUnit [((0 : ℚ), (0 : ℚ)), (1, 0)] ∧
      ((2001 : ℚ)/2 < 2000) ∧
      loopCommands [(0, ((2001 : ℚ)/2, 2000))] [(0, ⟨[(0, 0), (1, 0)], 0, 0⟩)]
          linear 1 [0] = [(0, 4000)] ∧
      ¬ ((2001 : ℚ)/2 * 4 ≤ ((4000 : ℤ) : ℚ)) := by
  refine ⟨?_, ?_, ?_, by norm_num, ?_, by norm_num⟩
  · norm_num [buildInterpolators, dictGet, buildInterpolator, interp1d,
      List.insertionSort, List.orderedInsert, timeLE, List.getLastD]
  · norm_num [totalDuration]
  · intro p hp
    rcases List.mem_cons.mp hp with h | h
    · rw [h]; norm_num
    · rcases List.mem_singleton.mp h with h'
      rw [h']; norm_num
  · norm_num [loopCommands, tickCommands, List.filterMap_cons, List.filterMap_nil, dictGet,
      sampleChannel, linear, Interp1d.evaluate, segEval, List.getLastD,
      maestro_target, pulse_us, pyInt]

/-- Claim C4 (amended): for every channel whose keyframe tracks have all
positions in [0, 1] and whose config is an integer pair min_pulse < max_pulse,
every command emitted for that channel, during the loop and in the final pass,
lies in the scaled device range [4·min_pulse, 4·max_pulse]. -/
theorem claim_C4 :
    ∀ (cfg : List (ℕ × ℚ × ℚ)) (tracks : List (ℕ × List (ℚ × ℚ)))
      (itps : List (ℕ × Interp1d)) (allT : List ℚ) (tw : ℚ → ℚ) (D : ℚ)
      (trace : List ℚ) (ch : ℕ) (mn mx : ℤ),
      buildInterpolators cfg tracks = some (itps, allT) →
      (∀ track, (ch, track) ∈ tracks → InUnit track) →
      dictGet cfg ch = some ((mn : ℚ), (mx : ℚ)) →
      mn < mx →
      ∀ pc ∈ loopCommands cfg itps tw D trace ++ finalCommands cfg itps D,
        pc.1 = ch → 4 * mn ≤ pc.2 ∧ pc.2 ≤ 4 * mx := by
  intro cfg tracks itps allT tw D trace ch mn mx hbuild hunit hcfg hlt pc hmem hch
  have main : ∀ (p : ℕ × Interp1d) (c : ℚ × ℚ) (v : ℚ), p ∈ itps →
      dictGet cfg p.1 = some c → p.1 = ch → (∃ t, v = p.2.evaluate t) →
      4 * mn ≤ maestro_target c.1 c.2 v ∧ maestro_target c.1 c.2 v ≤ 4 * mx := by
    intro p c v hp hc hpch hex
    obtain ⟨t, hv⟩ := hex
    obtain ⟨track, _, htr, hbi, _⟩ := buildInterpolators_mem hbuild hp
    rw [hpch] at htr hc
    have hcc : c = ((mn : ℚ), (mx : ℚ)) := Option.some.inj (hc.symm.trans hcfg)
    have hval := evaluate_unit hbi (hunit track htr) t
    have hmn_mx : (mn : ℚ) ≤ (mx : ℚ) := by exact_mod_cast hlt.le
    have hlo : (mn : ℚ) ≤ (mn : ℚ) + ((mx : ℚ) - mn) * (p.2.evaluate t) := by
      nlinarith [hval.1, hval.2]
    have hhi : (mn : ℚ) + ((mx : ℚ) - mn) * (p.2.evaluate t) ≤ (mx : ℚ) := by
      nlinarith [hval.1, hval.2]
    have hint := pyInt_bounds hlo hhi
    rw [hcc, hv, maestro_target, pulse_us]
    constructor
    · linarith [hint.1]
    · linarith [hint.2]
  rcases List.mem_append.mp hmem with hl | hf
  · obtain ⟨e, _, _, ht⟩ := mem_loopCommands hl
    obtain ⟨p, hp, c, hc, hpc⟩ := mem_tickCommands ht
    rw [hpc] at hch ⊢
    exact main p c _ hp hc hch (sampleChannel_is_evaluate tw D p.2 e)
  · obtain ⟨p, hp, c, hc, hpc⟩ := mem_finalCommands hf
    rw [hpc] at hch ⊢
    exact main p c _ hp hc hch ⟨D, rfl⟩

/-- Witness for claim C4 (amended): a one-channel animation with integer config
(1000, 2000), track positions in [0, 1] and total duration 1; the final command
(channel 0, target 8000) lies in the scaled range [4000, 8000]. -/
theorem claim_C4_witness :
    4 * (1000 : ℤ) ≤ 8000 ∧ (8000 : ℤ) ≤ 4 * 2000 := by
  have hbuild : buildInterpolators [(0, ((1000 : ℚ), 2000))] [(0, [(0, 0), (1, 1)])] =
      some ([(0, ⟨[(0, 0), (1, 1)], 0, 1⟩)], [0, 1]) := by
    norm_num [buildInterpolators, dictGet, buildInterpolator, interp1d,
      List.insertionSort, List.orderedInsert, timeLE, List.getLastD]
  have hunit : ∀ track, ((0 : ℕ), track) ∈ [((0 : ℕ), [((0 : ℚ), (0 : ℚ)), (1, 1)])] →
      InUnit track := by
    intro track htr
    rcases List.mem_singleton.mp htr with h
    have : track = [((0 : ℚ), (0 : ℚ)), (1, 1)] := congrArg Prod.snd h
    rw [this]
    intro p hp
    rcases List.mem_cons.mp hp with h' | h'
    · rw [h']; norm_num
    · rcases List.mem_singleton.mp h' with h''
      rw [h'']; norm_num
  have hcfg : dictGet [(0, ((1000 : ℚ), 2000))] 0 = some (((1000 : ℤ) : ℚ), ((2000 : ℤ) : ℚ)) := by
    norm_num [dictGet]
  have hmem : ((0, 8000) : ℕ × ℤ) ∈
      loopCommands [(0, ((1000 : ℚ), 2000))] [(0, ⟨[(0, 0), (1, 1)], 0, 1⟩)] linear 1 [2] ++
        finalCommands [(0, ((1000 : ℚ), 2000))] [(0, ⟨[(0, 0), (1, 1)], 0, 1⟩)] 1 := by
    norm_num [loopCommands, finalCommands, tickCommands, dictGet, maestro_target, pulse_us,
      pyInt, Interp1d.evaluate, segEval, List.getLastD]
  exact claim_C4 [(0, ((1000 : ℚ), 2000))] [(0, [(0, 0), (1, 1)])]
    [(0, ⟨[(0, 0), (1, 1)], 0, 1⟩)] [0, 1] linear 1 [2] 0 1000 2000
    hbuild hunit hcfg (by norm_num) (0, 8000) hmem rfl
